import Mathlib

/-!
Verification development for `expand_grouped.py`: a grouping simulator for a
batched tree-indexed hashing workload, together with a strategy-selecting
kernel code emitter and a load-schedule reporter.

The hash primitive `myhash` and the `Tree` and `Input` generators live in an
external module (`problem.py`) and are treated as opaque collaborators: the
embedding is parameterised over an arbitrary hash function `hash : Nat → Nat`,
an arbitrary tree (a list of node values) and an arbitrary initial batch
(a list of value and index pairs). Machine integers in the source are
unbounded Python integers, so `Nat` is the faithful carrier.
-/

namespace ExpandGrouped

/-- Hashed value computed in a round for one item: `myhash(val ^ tree.values[idx])`
(line 50 of the source). Out-of-range tree indexing is modelled with `getD`;
all uses in the program keep the index below the tree size. -/
def hashedVal (hash : Nat → Nat) (tree : List Nat) (it : Nat × Nat) : Nat :=
  hash (it.1 ^^^ tree.getD it.2 0)

/-- Child selector `(1 if val % 2 == 0 else 2)` from line 51 of the source. -/
def childSelector (hash : Nat → Nat) (tree : List Nat) (it : Nat × Nat) : Nat :=
  if hashedVal hash tree it % 2 = 0 then 1 else 2

/-- Pre-wrap next index `2 * idx + (1 if val % 2 == 0 else 2)` from line 51. -/
def rawNextIndex (hash : Nat → Nat) (tree : List Nat) (it : Nat × Nat) : Nat :=
  2 * it.2 + childSelector hash tree it

/-- One item update of one round (lines 47 to 54 of `simulate_groupings`):
hash the value xored with the current tree node, branch on parity, wrap the
index to 0 once it reaches the node count, and commit both components. -/
def stepItem (hash : Nat → Nat) (tree : List Nat) (it : Nat × Nat) : Nat × Nat :=
  (hashedVal hash tree it,
   if rawNextIndex hash tree it ≥ tree.length then 0 else rawNextIndex hash tree it)

/-- One full round over the batch. The Python loop writes each position from
that same position only, so it is a pointwise map. -/
def execRound (hash : Nat → Nat) (tree : List Nat) (batch : List (Nat × Nat)) :
    List (Nat × Nat) :=
  batch.map (stepItem hash tree)

/-- Batch state at the start of round `r`: `r`-fold iteration of `execRound`
on the initial batch. -/
def execRounds (hash : Nat → Nat) (tree : List Nat) (batch0 : List (Nat × Nat)) :
    Nat → List (Nat × Nat)
  | 0 => batch0
  | r + 1 => execRound hash tree (execRounds hash tree batch0 r)

/-- Per-round record built by `simulate_groupings` (lines 31 to 44): the round
number, the number of distinct nodes occupied, the distinct node ids, the
group of item positions at each node, and the group sizes. The Python
`defaultdict` appends positions in ascending order, which the filter over
`List.range` reproduces; `nodes` carries the distinct keys (their order is
only ever consumed through sorting or when there is exactly one key). -/
structure RoundInfo where
  round : Nat
  num_unique_nodes : Nat
  nodes : List Nat
  groups : Nat → List Nat
  group_sizes : Nat → Nat
deriving Inhabited

/-- Grouping snapshot of a batch, taken before the update of the round runs. -/
def mkRoundInfo (r : Nat) (batch : List (Nat × Nat)) : RoundInfo :=
  let indices := batch.map Prod.snd
  let grp := fun n => (List.range batch.length).filter (fun i => indices.getD i 0 == n)
  { round := r
    num_unique_nodes := indices.dedup.length
    nodes := indices.dedup
    groups := grp
    group_sizes := fun n => (grp n).length }

/-- The simulator `simulate_groupings`, with the external generators factored
out as parameters: for each round record the grouping of the current indices,
then apply the update in place. Unrolling the loop, the state at round `r` is
`execRounds hash tree batch0 r`. -/
def simulate_groupings (hash : Nat → Nat) (tree : List Nat)
    (batch0 : List (Nat × Nat)) (rounds : Nat) : List RoundInfo :=
  (List.range rounds).map (fun r => mkRoundInfo r (execRounds hash tree batch0 r))

/-- Update recurrence written per the specification, section 4.1: the five
numbered commitment steps, stated independently of the source loop so the two
can be compared. -/
def specPerItemUpdate (hash : Nat → Nat) (tree : List Nat)
    (value index : Nat) : Nat × Nat :=
  let valNew := hash (value ^^^ tree.getD index 0)
  let child_selector := if valNew % 2 = 0 then 1 else 2
  let indexNext := 2 * index + child_selector
  let indexCommitted := if indexNext ≥ tree.length then 0 else indexNext
  (valNew, indexCommitted)

/-- The three code shapes of `generate_grouped_kernel`. -/
inductive Strategy where
  | singleBroadcast
  | perGroupBroadcast
  | indirection
deriving DecidableEq, Inhabited

/-- Form of the emitted index update inside a loop body: either the wrap
assignment `idx[i] = 0` (line 120 of the source) or the generic recurrence
with the wrap guard (lines 122 to 123, 133 to 134, 144 to 145). -/
inductive UpdateForm where
  | wrapToRoot
  | genericRecurrence
deriving DecidableEq, Inhabited

/-- Iteration space of an emitted loop: an explicit item-position list
(`for i in {items}`) or the literal bound form `for i in range(n)`. -/
inductive LoopIter where
  | itemList (items : List Nat)
  | rangeN (n : Nat)
deriving DecidableEq, Inhabited

/-- One emitted loop: the broadcast load feeding it (the node id loaded into a
scalar, or none when values come from the cache), its iteration space, and
the form of its index update. -/
structure LoopCode where
  load : Option Nat
  iter : LoopIter
  form : UpdateForm
deriving DecidableEq, Inhabited

/-- Structured rendering of one round block of `generate_grouped_kernel`
(lines 104 to 147): the round number, the chosen strategy, the node ids
preloaded into the cache (indirection only) and the emitted loops. -/
structure RoundCode where
  round : Nat
  strategy : Strategy
  cacheNodes : List Nat
  loops : List LoopCode
deriving Inhabited

/-- Insertion of a number into a sorted list, ascending. -/
def insertAsc (x : Nat) : List Nat → List Nat
  | [] => [x]
  | y :: ys => if x ≤ y then x :: y :: ys else y :: insertAsc x ys

/-- Ascending sort, modelling the `sorted(...)` calls of the emitter. -/
def sortNat (l : List Nat) : List Nat := l.foldr insertAsc []

/-- Structured emission of one round, following the branch structure of
`generate_grouped_kernel` exactly: one group gives a single broadcast whose
update is the wrap assignment exactly when the round number is the literal 10
and the generic recurrence otherwise; at most eight groups give one broadcast
loop per group, in ascending node order, each with the generic recurrence;
more than eight groups give a cache over the sorted distinct nodes and one
loop over the literal `range(256)` with the generic recurrence. This
abstracts only the string rendering; every branch test, literal and loop
structure is that of the source. -/
def emitRound (info : RoundInfo) : RoundCode :=
  let n_groups := info.num_unique_nodes
  if n_groups = 1 then
    let node := info.nodes.getD 0 0
    { round := info.round
      strategy := .singleBroadcast
      cacheNodes := []
      loops := [{ load := some node
                  iter := .itemList (info.groups node)
                  form := if info.round = 10 then .wrapToRoot else .genericRecurrence }] }
  else if n_groups ≤ 8 then
    { round := info.round
      strategy := .perGroupBroadcast
      cacheNodes := []
      loops := (sortNat info.nodes).map (fun n =>
        { load := some n
          iter := .itemList (info.groups n)
          form := .genericRecurrence }) }
  else
    { round := info.round
      strategy := .indirection
      cacheNodes := sortNat info.nodes
      loops := [{ load := none
                  iter := .rangeN 256
                  form := .genericRecurrence }] }

/-- Whole-kernel emission: one structured block per round. -/
def generate_grouped_kernel (round_info : List RoundInfo) : List RoundCode :=
  round_info.map emitRound

/-- Reporter categories of `generate_broadcast_schedule` (lines 177 to 182):
the human readable strategy label printed for a round. -/
inductive ReportCategory where
  | singleBroadcastAll
  | broadcastGroups
  | sparseIndirection
deriving DecidableEq, Inhabited

/-- Strategy label of the reporter: `1 broadcast` when one group, a broadcast
count up to the secondary boundary 32, and the sparse label beyond it. -/
def reportCategory (n_groups : Nat) : ReportCategory :=
  if n_groups = 1 then .singleBroadcastAll
  else if n_groups ≤ 32 then .broadcastGroups
  else .sparseIndirection

/-- Accumulated grouped load count of the reporter: `total_loads += n_groups`
per round (line 175). -/
def schedule_total_loads : List RoundInfo → Nat
  | [] => 0
  | info :: rest => info.num_unique_nodes + schedule_total_loads rest

/-- Accumulated naive load count of the reporter: the literal
`naive_loads += 256` per round (line 174). -/
def schedule_naive_loads : List RoundInfo → Nat
  | [] => 0
  | _ :: rest => 256 + schedule_naive_loads rest

/-! Basic lemmas about the simulator. -/

theorem length_execRound (hash : Nat → Nat) (tree : List Nat)
    (batch : List (Nat × Nat)) : (execRound hash tree batch).length = batch.length :=
  List.length_map _ _

theorem length_execRounds (hash : Nat → Nat) (tree : List Nat)
    (batch0 : List (Nat × Nat)) (r : Nat) :
    (execRounds hash tree batch0 r).length = batch0.length := by
  induction r with
  | zero => rfl
  | succ r ih => simpa [execRounds, execRound] using ih

theorem getD_simulate_groupings (hash : Nat → Nat) (tree : List Nat)
    (batch0 : List (Nat × Nat)) {rounds r : Nat} (hr : r < rounds) :
    (simulate_groupings hash tree batch0 rounds).getD r default =
      mkRoundInfo r (execRounds hash tree batch0 r) := by
  unfold simulate_groupings
  rw [List.getD_eq_getElem?_getD, List.getElem?_map, List.getElem?_range hr]
  rfl

theorem childSelector_ge_one (hash : Nat → Nat) (tree : List Nat)
    (it : Nat × Nat) : 1 ≤ childSelector hash tree it := by
  unfold childSelector; split <;> omega

theorem childSelector_le_two (hash : Nat → Nat) (tree : List Nat)
    (it : Nat × Nat) : childSelector hash tree it ≤ 2 := by
  unfold childSelector; split <;> omega

theorem stepItem_snd (hash : Nat → Nat) (tree : List Nat) (it : Nat × Nat) :
    (stepItem hash tree it).2 =
      if rawNextIndex hash tree it ≥ tree.length then 0
      else rawNextIndex hash tree it := rfl

/-- C1: for every tree, hash function and item state with a valid index, the
per-item update of the simulator computes exactly the five-step recurrence of
the specification (hash of value xor node, parity selector, doubled index
plus selector, wrap at the node count, commit of both components), and each
round applies this update to every batch position independently. -/
theorem c1_per_item_update_matches_spec (hash : Nat → Nat) (tree : List Nat)
    (v i : Nat) (batch : List (Nat × Nat)) (j : Nat)
    (hi : i < tree.length) (hj : j < batch.length) :
    stepItem hash tree (v, i) = specPerItemUpdate hash tree v i ∧
      (execRound hash tree batch).getD j (0, 0) =
        stepItem hash tree (batch.getD j (0, 0)) := by
  constructor
  · rfl
  · unfold execRound
    rw [List.getD_eq_getElem?_getD, List.getElem?_map,
      List.getD_eq_getElem?_getD, List.getElem?_eq_getElem hj]
    rfl

/-- Witness for C1 at a concrete hash, tree, item and batch. -/
theorem c1_per_item_update_matches_spec_witness :
    stepItem id [3, 4, 5] (7, 1) = specPerItemUpdate id [3, 4, 5] 7 1 ∧
      (execRound id [3, 4, 5] [(7, 1), (2, 2)]).getD 1 (0, 0) =
        stepItem id [3, 4, 5] ([(7, 1), (2, 2)].getD 1 (0, 0)) :=
  c1_per_item_update_matches_spec id [3, 4, 5] 7 1 [(7, 1), (2, 2)] 1
    (by decide) (by decide)

theorem stepItem_snd_lt (hash : Nat → Nat) (tree : List Nat) (it : Nat × Nat)
    (h : it.2 < tree.length) : (stepItem hash tree it).2 < tree.length := by
  rw [stepItem_snd]
  split
  · omega
  · omega

theorem execRounds_snd_lt (hash : Nat → Nat) (tree : List Nat)
    (batch0 : List (Nat × Nat)) (h0 : ∀ x ∈ batch0, x.2 < tree.length)
    (r : Nat) : ∀ it ∈ execRounds hash tree batch0 r, it.2 < tree.length := by
  induction r with
  | zero => exact h0
  | succ r ih =>
    intro it hit
    unfold execRounds execRound at hit
    obtain ⟨x, hx, rfl⟩ := List.mem_map.mp hit
    exact stepItem_snd_lt hash tree x (ih x hx)

/-- C6: a single round update keeps a valid index valid (the committed index
is either the doubled index plus selector when below the node count, or 0),
and therefore, from a batch whose indices are all valid, every item index at
every round is a valid node id, so tree indexing never leaves the array. -/
theorem c6_index_always_in_range (hash : Nat → Nat) (tree : List Nat)
    (batch0 : List (Nat × Nat)) (r : Nat) (it itr : Nat × Nat)
    (hstep : it.2 < tree.length)
    (h0 : ∀ x ∈ batch0, x.2 < tree.length)
    (hmem : itr ∈ execRounds hash tree batch0 r) :
    (stepItem hash tree it).2 < tree.length ∧ itr.2 < tree.length :=
  ⟨stepItem_snd_lt hash tree it hstep,
   execRounds_snd_lt hash tree batch0 h0 r itr hmem⟩

/-- Witness for C6 at a concrete hash, tree, batch and round. -/
theorem c6_index_always_in_range_witness :
    (stepItem id [7] (5, 0)).2 < 1 ∧ (7, 0).2 < 1 := by
  have h := c6_index_always_in_range id [7] [(0, 0)] 3 (5, 0) (7, 0)
    (by decide) (by decide) (by decide)
  simpa using h

/-- C2: the group mapping recorded for round `r` partitions the batch by the
index each item holds at the start of round `r`, before the update of that
round runs: a position `i` below the batch size belongs to the list of node
`n` exactly when its current index is `n`, and every group list is free of
duplicates (so each position occurs exactly once, in its own group). -/
theorem c2_groups_partition_batch (hash : Nat → Nat) (tree : List Nat)
    (batch0 : List (Nat × Nat)) (rounds r i n : Nat)
    (hr : r < rounds) (hi : i < batch0.length) :
    (i ∈ ((simulate_groupings hash tree batch0 rounds).getD r default).groups n ↔
      ((execRounds hash tree batch0 r).map Prod.snd).getD i 0 = n) ∧
      (((simulate_groupings hash tree batch0 rounds).getD r default).groups n).Nodup := by
  rw [getD_simulate_groupings hash tree batch0 hr]
  unfold mkRoundInfo
  simp only [List.mem_filter, List.mem_range, beq_iff_eq]
  constructor
  · constructor
    · rintro ⟨-, h⟩
      exact h
    · intro h
      exact ⟨by rw [length_execRounds]; exact hi, h⟩
  · exact (List.nodup_range _).filter _

/-- Witness for C2 at a concrete run: round 1 of a two-item batch. -/
theorem c2_groups_partition_batch_witness :
    (1 ∈ ((simulate_groupings id [3, 4, 5] [(0, 0), (1, 0)] 4).getD 1 default).groups 2 ↔
      ((execRounds id [3, 4, 5] [(0, 0), (1, 0)] 1).map Prod.snd).getD 1 0 = 2) ∧
      (((simulate_groupings id [3, 4, 5] [(0, 0), (1, 0)] 4).getD 1 default).groups 2).Nodup :=
  c2_groups_partition_batch id [3, 4, 5] [(0, 0), (1, 0)] 4 1 1 2
    (by decide) (by decide)

theorem num_unique_nodes_pos (hash : Nat → Nat) (tree : List Nat)
    (batch0 : List (Nat × Nat)) (r : Nat) (hb : batch0 ≠ []) :
    1 ≤ (mkRoundInfo r (execRounds hash tree batch0 r)).num_unique_nodes := by
  unfold mkRoundInfo
  simp only
  have hlen : (execRounds hash tree batch0 r).length = batch0.length :=
    length_execRounds hash tree batch0 r
  have hne : (execRounds hash tree batch0 r).map Prod.snd ≠ [] := by
    intro h
    have := congrArg List.length h
    simp [hlen] at this
    exact hb this
  have hd : ((execRounds hash tree batch0 r).map Prod.snd).dedup ≠ [] := by
    intro h
    exact hne ((List.dedup_eq_nil _).mp h)
  have := List.length_pos.mpr hd
  omega

/-- C3: for every round of a simulation over a nonempty batch, the emitter
selects exactly one of the three code shapes, as a function of the distinct
node count `g` of the round alone: the single broadcast exactly when `g = 1`,
the per-group broadcast exactly when `1 < g ≤ 8`, and the indirection cache
exactly when `g > 8`. -/
theorem c3_strategy_coverage (hash : Nat → Nat) (tree : List Nat)
    (batch0 : List (Nat × Nat)) (rounds r : Nat)
    (hb : batch0 ≠ []) (hr : r < rounds) :
    ((emitRound ((simulate_groupings hash tree batch0 rounds).getD r default)).strategy =
        Strategy.singleBroadcast ↔
      ((simulate_groupings hash tree batch0 rounds).getD r default).num_unique_nodes = 1) ∧
    ((emitRound ((simulate_groupings hash tree batch0 rounds).getD r default)).strategy =
        Strategy.perGroupBroadcast ↔
      (1 < ((simulate_groupings hash tree batch0 rounds).getD r default).num_unique_nodes ∧
        ((simulate_groupings hash tree batch0 rounds).getD r default).num_unique_nodes ≤ 8)) ∧
    ((emitRound ((simulate_groupings hash tree batch0 rounds).getD r default)).strategy =
        Strategy.indirection ↔
      8 < ((simulate_groupings hash tree batch0 rounds).getD r default).num_unique_nodes) := by
  rw [getD_simulate_groupings hash tree batch0 hr]
  have hpos := num_unique_nodes_pos hash tree batch0 r hb
  set info := mkRoundInfo r (execRounds hash tree batch0 r) with hinfo
  unfold emitRound
  rcases Nat.lt_or_ge 1 info.num_unique_nodes with h1 | h1
  · rcases le_or_lt info.num_unique_nodes 8 with h8 | h8
    · rw [if_neg (by omega), if_pos h8]
      refine ⟨⟨fun h => by simp at h, fun h => by omega⟩, ⟨fun _ => ⟨h1, h8⟩, fun _ => rfl⟩,
        ⟨fun h => by simp at h, fun h => by omega⟩⟩
    · rw [if_neg (by omega), if_neg (by omega)]
      refine ⟨⟨fun h => by simp at h, fun h => by omega⟩,
        ⟨fun h => by simp at h, fun h => by omega⟩, ⟨fun _ => h8, fun _ => rfl⟩⟩
  · have h1' : info.num_unique_nodes = 1 := by omega
    rw [if_pos h1']
    refine ⟨⟨fun _ => h1', fun _ => rfl⟩, ⟨fun h => by simp at h, fun h => by omega⟩,
      ⟨fun h => by simp at h, fun h => by omega⟩⟩

/-- Witness for C3 at a concrete run: round 1 of a two-item batch has two
groups and is emitted as a per-group broadcast. -/
theorem c3_strategy_coverage_witness :
    ((emitRound ((simulate_groupings id [3, 4, 5] [(0, 0), (1, 0)] 4).getD 1 default)).strategy =
        Strategy.singleBroadcast ↔
      ((simulate_groupings id [3, 4, 5] [(0, 0), (1, 0)] 4).getD 1 default).num_unique_nodes = 1) ∧
    ((emitRound ((simulate_groupings id [3, 4, 5] [(0, 0), (1, 0)] 4).getD 1 default)).strategy =
        Strategy.perGroupBroadcast ↔
      (1 < ((simulate_groupings id [3, 4, 5] [(0, 0), (1, 0)] 4).getD 1 default).num_unique_nodes ∧
        ((simulate_groupings id [3, 4, 5] [(0, 0), (1, 0)] 4).getD 1 default).num_unique_nodes ≤ 8)) ∧
    ((emitRound ((simulate_groupings id [3, 4, 5] [(0, 0), (1, 0)] 4).getD 1 default)).strategy =
        Strategy.indirection ↔
      8 < ((simulate_groupings id [3, 4, 5] [(0, 0), (1, 0)] 4).getD 1 default).num_unique_nodes) :=
  c3_strategy_coverage id [3, 4, 5] [(0, 0), (1, 0)] 4 1 (by decide) (by decide)

/-- Depth invariant of the root-started traversal: before the tree height is
reached, the item at round `r` sits at a depth `r` node, whose index lies
between `2 ^ r - 1` and `2 ^ (r + 1) - 2`. -/
theorem execRounds_depth_bounds (hash : Nat → Nat) (tree : List Nat)
    (batch0 : List (Nat × Nat)) (H : Nat)
    (hN : tree.length = 2 ^ (H + 1) - 1)
    (h0 : ∀ x ∈ batch0, x.2 = 0) :
    ∀ r, r ≤ H → ∀ it ∈ execRounds hash tree batch0 r,
      2 ^ r - 1 ≤ it.2 ∧ it.2 ≤ 2 ^ (r + 1) - 2 := by
  intro r
  induction r with
  | zero =>
    intro _ it hit
    have := h0 it hit
    simp [this]
  | succ r ih =>
    intro hr it hit
    unfold execRounds execRound at hit
    obtain ⟨x, hx, rfl⟩ := List.mem_map.mp hit
    have hxb := ih (by omega) x hx
    have hs1 := childSelector_ge_one hash tree x
    have hs2 := childSelector_le_two hash tree x
    have hp0 : 0 < 2 ^ r := pow_pos (by norm_num) r
    have hp1 : 2 ^ (r + 1) = 2 ^ r * 2 := pow_succ 2 r
    have hp2 : 2 ^ (r + 2) = 2 ^ (r + 1) * 2 := pow_succ 2 (r + 1)
    have hple : 2 ^ (r + 2) ≤ 2 ^ (H + 1) :=
      Nat.pow_le_pow_right (by norm_num) (by omega)
    have hraw : rawNextIndex hash tree x = 2 * x.2 + childSelector hash tree x := rfl
    have hlt : rawNextIndex hash tree x < tree.length := by
      rw [hraw, hN]; omega
    rw [stepItem_snd, if_neg (by omega)]
    rw [hraw]
    omega

/-- C5: for a tree of height `H` holding `2 ^ (H + 1) - 1` nodes and a batch
whose items all start at the root, in the round with index `H` every item has
a computed next index `2 * index + selector` at or beyond the node count, so
the wrap branch fires for every item of that round and commits index 0. -/
theorem c5_height_boundary_wrap (hash : Nat → Nat) (H : Nat) (tree : List Nat)
    (batch0 : List (Nat × Nat)) (rounds : Nat) (it : Nat × Nat)
    (hN : tree.length = 2 ^ (H + 1) - 1)
    (h0 : ∀ x ∈ batch0, x.2 = 0)
    (hR : H < rounds)
    (hmem : it ∈ execRounds hash tree batch0 H) :
    tree.length ≤ rawNextIndex hash tree it ∧ (stepItem hash tree it).2 = 0 := by
  have hb := execRounds_depth_bounds hash tree batch0 H hN h0 H (le_refl H) it hmem
  have hs1 := childSelector_ge_one hash tree it
  have hp0 : 0 < 2 ^ H := pow_pos (by norm_num) H
  have hp1 : 2 ^ (H + 1) = 2 ^ H * 2 := pow_succ 2 H
  have hraw : rawNextIndex hash tree it = 2 * it.2 + childSelector hash tree it := rfl
  have hge : tree.length ≤ rawNextIndex hash tree it := by
    rw [hraw, hN]; omega
  exact ⟨hge, by rw [stepItem_snd, if_pos hge]⟩

/-- Witness for C5 with a height 1 tree and a one-item batch. -/
theorem c5_height_boundary_wrap_witness :
    (3 : Nat) ≤ rawNextIndex id [5, 6, 7] (5, 2) ∧ (stepItem id [5, 6, 7] (5, 2)).2 = 0 :=
  c5_height_boundary_wrap id 1 [5, 6, 7] [(0, 0)] 2 (5, 2)
    (by decide) (by decide) (by decide) (by decide)

theorem num_unique_nodes_le_batch (hash : Nat → Nat) (tree : List Nat)
    (batch0 : List (Nat × Nat)) (r : Nat) :
    (mkRoundInfo r (execRounds hash tree batch0 r)).num_unique_nodes ≤ batch0.length := by
  unfold mkRoundInfo
  simp only
  calc ((execRounds hash tree batch0 r).map Prod.snd).dedup.length
      ≤ ((execRounds hash tree batch0 r).map Prod.snd).length :=
        (List.dedup_sublist _).length_le
    _ = batch0.length := by rw [List.length_map, length_execRounds]

theorem mem_simulate_groupings (hash : Nat → Nat) (tree : List Nat)
    (batch0 : List (Nat × Nat)) (rounds : Nat) (info : RoundInfo)
    (h : info ∈ simulate_groupings hash tree batch0 rounds) :
    ∃ r, r < rounds ∧ info = mkRoundInfo r (execRounds hash tree batch0 r) := by
  unfold simulate_groupings at h
  obtain ⟨r, hr, rfl⟩ := List.mem_map.mp h
  exact ⟨r, List.mem_range.mp hr, rfl⟩

theorem length_simulate_groupings (hash : Nat → Nat) (tree : List Nat)
    (batch0 : List (Nat × Nat)) (rounds : Nat) :
    (simulate_groupings hash tree batch0 rounds).length = rounds := by
  unfold simulate_groupings
  rw [List.length_map, List.length_range]

theorem schedule_total_loads_le (l : List RoundInfo) (B : Nat)
    (h : ∀ info ∈ l, info.num_unique_nodes ≤ B) :
    schedule_total_loads l ≤ l.length * B := by
  induction l with
  | nil => simp [schedule_total_loads]
  | cons info rest ih =>
    have h1 := h info (by simp)
    have h2 := ih (fun i hi => h i (by simp [hi]))
    simp only [schedule_total_loads, List.length_cons, Nat.succ_mul]
    omega

theorem schedule_total_loads_eq_iff (l : List RoundInfo) (B : Nat)
    (h : ∀ info ∈ l, info.num_unique_nodes ≤ B)
    (heq : schedule_total_loads l = l.length * B) :
    ∀ info ∈ l, info.num_unique_nodes = B := by
  induction l with
  | nil => simp
  | cons info rest ih =>
    have h1 := h info (by simp)
    have h2 : ∀ i ∈ rest, i.num_unique_nodes ≤ B := fun i hi => h i (by simp [hi])
    have h3 := schedule_total_loads_le rest B h2
    simp only [schedule_total_loads, List.length_cons, Nat.succ_mul] at heq
    have h4 : info.num_unique_nodes = B ∧
        schedule_total_loads rest = rest.length * B := by omega
    intro i hi
    rcases List.mem_cons.mp hi with rfl | hi
    · exact h4.1
    · exact ih h2 h4.2 i hi

/-- C7: per round, the grouped load count is the distinct node count, hence at
most the minimum of the distinct node count and the batch size; over all
rounds the grouped total is at most the naive total of one load per item per
round, with equality only when every round has as many groups as items. -/
theorem c7_load_count_bound (hash : Nat → Nat) (tree : List Nat)
    (batch0 : List (Nat × Nat)) (rounds : Nat) :
    (∀ info ∈ simulate_groupings hash tree batch0 rounds,
      info.num_unique_nodes ≤ min info.num_unique_nodes batch0.length) ∧
    schedule_total_loads (simulate_groupings hash tree batch0 rounds) ≤
      rounds * batch0.length ∧
    (schedule_total_loads (simulate_groupings hash tree batch0 rounds) =
        rounds * batch0.length →
      ∀ info ∈ simulate_groupings hash tree batch0 rounds,
        info.num_unique_nodes = batch0.length) := by
  have hle : ∀ info ∈ simulate_groupings hash tree batch0 rounds,
      info.num_unique_nodes ≤ batch0.length := by
    intro info hinfo
    obtain ⟨r, -, rfl⟩ := mem_simulate_groupings hash tree batch0 rounds info hinfo
    exact num_unique_nodes_le_batch hash tree batch0 r
  refine ⟨fun info hinfo => le_min (le_refl _) (hle info hinfo), ?_, ?_⟩
  · have := schedule_total_loads_le _ batch0.length hle
    rwa [length_simulate_groupings, ] at this
  · intro heq
    exact schedule_total_loads_eq_iff _ batch0.length hle
      (by rwa [length_simulate_groupings])

/-- Witness for C7: the grouped total of a concrete two-item run stays below
the naive total. -/
theorem c7_load_count_bound_witness :
    schedule_total_loads (simulate_groupings id [3, 4, 5] [(0, 0), (1, 0)] 2) ≤ 2 * 2 :=
  (c7_load_count_bound id [3, 4, 5] [(0, 0), (1, 0)] 2).2.1

theorem getD_replicate_lt (n i a d : Nat) (h : i < n) :
    (List.replicate n a).getD i d = a := by
  rw [List.getD_eq_getElem?_getD,
    List.getElem?_eq_getElem (by simpa using h)]
  simp

theorem stepItem_allZeroTree_evenVal (i : Nat) (hi : i < 2047) :
    stepItem id (List.replicate 2047 0) (0, i) =
      (0, if 2 * i + 1 ≥ 2047 then 0 else 2 * i + 1) := by
  unfold stepItem rawNextIndex childSelector hashedVal
  simp only [id_eq]
  rw [getD_replicate_lt 2047 i 0 0 hi]
  norm_num [List.length_replicate]

theorem stepItem_allZeroTree_oddVal (i : Nat) (hi : i < 2047) :
    stepItem id (List.replicate 2047 0) (1, i) =
      (1, if 2 * i + 2 ≥ 2047 then 0 else 2 * i + 2) := by
  unfold stepItem rawNextIndex childSelector hashedVal
  simp only [id_eq]
  rw [getD_replicate_lt 2047 i 0 0 hi]
  norm_num [List.length_replicate]

/-- Trace of a concrete two-item reference-shaped run: with the identity hash
and an all-zero tree of 2047 nodes, the even-valued item always takes the
left child and the odd-valued item the right child, so at the start of round
`r ≤ 10` they sit at the leftmost and rightmost depth `r` nodes. -/
theorem execRounds_c4_trace (r : Nat) (hr : r ≤ 10) :
    execRounds id (List.replicate 2047 0) [(0, 0), (1, 0)] r =
      [(0, 2 ^ r - 1), (1, 2 ^ (r + 1) - 2)] := by
  induction r with
  | zero => norm_num [execRounds]
  | succ r ih =>
    have hp1 : 2 ^ (r + 1) = 2 ^ r * 2 := pow_succ 2 r
    have hp2 : 2 ^ (r + 2) = 2 ^ (r + 1) * 2 := pow_succ 2 (r + 1)
    have hub : 2 ^ r ≤ 512 := by
      calc 2 ^ r ≤ 2 ^ 9 := Nat.pow_le_pow_right (by norm_num) (by omega)
        _ = 512 := by norm_num
    have h0 : 0 < 2 ^ r := pow_pos (by norm_num) r
    rw [execRounds, ih (by omega), execRound, List.map_cons, List.map_cons,
      List.map_nil, stepItem_allZeroTree_evenVal _ (by omega),
      stepItem_allZeroTree_oddVal _ (by omega),
      if_neg (by omega), if_neg (by omega)]
    have hq : (2 : Nat) ^ (r + 1 + 1) = 2 ^ (r + 2) := rfl
    have e1 : 2 * (2 ^ r - 1) + 1 = 2 ^ (r + 1) - 1 := by omega
    have e2 : 2 * (2 ^ (r + 1) - 2) + 2 = 2 ^ (r + 1 + 1) - 2 := by omega
    rw [e1, e2]

/-- Counterexample to C4 as stated. Reference configuration: a tree of height
10 with 2047 nodes and a batch started at the root, here with the identity
hash and two items. During round 10 every item wraps back to node 0 (third
conjunct), so round 10 is the wrap round of the claim; yet the emitted block
for round 10 contains only generic recurrences and no wrap assignment,
because the literal round test sits inside the single-group branch while
round 10 groups the items by their distinct leaves. -/
theorem c4_wrap_round_counterexample :
    (List.replicate 2047 0 : List Nat).length = 2 ^ (10 + 1) - 1 ∧
    ((emitRound ((simulate_groupings id (List.replicate 2047 0)
        [(0, 0), (1, 0)] 16).getD 10 default)).loops.map LoopCode.form) =
      [UpdateForm.genericRecurrence, UpdateForm.genericRecurrence] ∧
    ((execRounds id (List.replicate 2047 0) [(0, 0), (1, 0)] 11).map Prod.snd) =
      [0, 0] := by
  refine ⟨by norm_num, ?_, ?_⟩
  · rw [getD_simulate_groupings id (List.replicate 2047 0) [(0, 0), (1, 0)]
      (by norm_num : (10 : Nat) < 16),
      execRounds_c4_trace 10 (by norm_num)]
    norm_num
    decide
  · rw [show (11 : Nat) = 10 + 1 from rfl, execRounds,
      execRounds_c4_trace 10 (by norm_num)]
    norm_num
    simp only [execRound, List.map_cons, List.map_nil]
    rw [stepItem_allZeroTree_evenVal 1023 (by norm_num),
      stepItem_allZeroTree_oddVal 2046 (by norm_num)]
    norm_num

/-- C4 amended: a round block of the emitted kernel carries the wrap
assignment in place of the generic recurrence exactly when its round number
equals the literal 10 and its distinct node count is 1; every other emitted
loop, including those of a round 10 that holds more than one group, carries
the generic recurrence with the wrap guard. -/
theorem c4_wrap_emission_amended (info : RoundInfo) :
    UpdateForm.wrapToRoot ∈ (emitRound info).loops.map LoopCode.form ↔
      (info.round = 10 ∧ info.num_unique_nodes = 1) := by
  unfold emitRound
  by_cases h1 : info.num_unique_nodes = 1
  · rw [if_pos h1]
    by_cases hr : info.round = 10
    · simp [hr, h1]
    · simp [hr, h1]
  · rw [if_neg h1]
    by_cases h8 : info.num_unique_nodes ≤ 8
    · rw [if_pos h8]
      simp [h1, Function.comp]
    · rw [if_neg h8]
      simp [h1]

/-- Counterexample to C8 as stated. The round count 0 is a configuration
inconsistency in the sense of the claim (a non-positive round count), yet
the simulator runs to a normal completion and returns the empty record list:
the source contains no configuration validation and raises nothing, which is
why its embedding is a total function. -/
theorem c8_no_validation_counterexample :
    simulate_groupings id [0] [(0, 0)] 0 = [] := rfl

/-- C8 amended: the program performs no configuration validation at all. A
non-positive round count yields a normal empty result and an empty batch runs
every round normally, in both cases with no error; the strategy thresholds
are hard-coded literals, so a threshold ordering inversion cannot even be
configured. -/
theorem c8_no_validation_amended (hash : Nat → Nat) (tree : List Nat)
    (batch0 : List (Nat × Nat)) (rounds : Nat) :
    simulate_groupings hash tree batch0 0 = [] ∧
    (simulate_groupings hash tree [] rounds).length = rounds := by
  exact ⟨rfl, length_simulate_groupings hash tree [] rounds⟩

/-- C9: the secondary boundary at 32 never influences the emitted code shape;
the strategy chosen by the emitter is a function of the two predicates
`g = 1` and `g ≤ 8` alone, while the reporter labels rounds with
`1 < g ≤ 32` as broadcasts and rounds with `g > 32` as sparse indirection. -/
theorem c9_secondary_boundary_reporting_only (i1 i2 : RoundInfo) (g : Nat)
    (h1 : (i1.num_unique_nodes = 1) ↔ (i2.num_unique_nodes = 1))
    (h8 : (i1.num_unique_nodes ≤ 8) ↔ (i2.num_unique_nodes ≤ 8)) :
    (emitRound i1).strategy = (emitRound i2).strategy ∧
    (1 < g → g ≤ 32 → reportCategory g = ReportCategory.broadcastGroups) ∧
    (32 < g → reportCategory g = ReportCategory.sparseIndirection) := by
  refine ⟨?_, ?_, ?_⟩
  · unfold emitRound
    by_cases e1 : i1.num_unique_nodes = 1
    · rw [if_pos e1, if_pos (h1.mp e1)]
    · rw [if_neg e1, if_neg (fun h => e1 (h1.mpr h))]
      by_cases e8 : i1.num_unique_nodes ≤ 8
      · rw [if_pos e8, if_pos (h8.mp e8)]
      · rw [if_neg e8, if_neg (fun h => e8 (h8.mpr h))]
  · intro hg1 hg32
    unfold reportCategory
    rw [if_neg (by omega), if_pos hg32]
  · intro hg32
    unfold reportCategory
    rw [if_neg (by omega), if_neg (by omega)]

/-- Witness for C9: rounds with 9 and with 33 groups receive the same emitted
shape even though they sit on opposite sides of the 32 boundary, while the
reporter labels 9 groups as broadcasts and 33 groups as sparse. -/
theorem c9_secondary_boundary_reporting_only_witness :
    (emitRound ⟨0, 9, [], fun _ => [], fun _ => 0⟩).strategy =
      (emitRound ⟨0, 33, [], fun _ => [], fun _ => 0⟩).strategy ∧
    reportCategory 9 = ReportCategory.broadcastGroups ∧
    reportCategory 33 = ReportCategory.sparseIndirection :=
  ⟨(c9_secondary_boundary_reporting_only ⟨0, 9, [], fun _ => [], fun _ => 0⟩
      ⟨0, 33, [], fun _ => [], fun _ => 0⟩ 9 (by decide) (by decide)).1,
   (c9_secondary_boundary_reporting_only ⟨0, 9, [], fun _ => [], fun _ => 0⟩
      ⟨0, 33, [], fun _ => [], fun _ => 0⟩ 9 (by decide) (by decide)).2.1
      (by decide) (by decide),
   (c9_secondary_boundary_reporting_only ⟨0, 9, [], fun _ => [], fun _ => 0⟩
      ⟨0, 33, [], fun _ => [], fun _ => 0⟩ 33 (by decide) (by decide)).2.2
      (by decide)⟩

theorem schedule_naive_loads_eq (l : List RoundInfo) :
    schedule_naive_loads l = 256 * l.length := by
  induction l with
  | nil => rfl
  | cons info rest ih =>
    simp only [schedule_naive_loads, List.length_cons, ih]
    omega

/-- C10: the batch size 256 is hard-coded independently of the public batch
size parameter. Every indirection round is emitted with the literal loop
bound 256 (the emitter never even receives the batch size), and the reporter
counts the literal 256 naive loads per round; so for any batch of a size
other than 256 the reported naive total differs from one load per actual
item per round. -/
theorem c10_batch_size_hardcoded (hash : Nat → Nat) (tree : List Nat)
    (batch0 : List (Nat × Nat)) (rounds : Nat) (info : RoundInfo)
    (h8 : 8 < info.num_unique_nodes) (hb : batch0.length ≠ 256)
    (hR : 0 < rounds) :
    (emitRound info).loops =
      [{ load := none, iter := LoopIter.rangeN 256,
         form := UpdateForm.genericRecurrence }] ∧
    schedule_naive_loads (simulate_groupings hash tree batch0 rounds) =
      256 * rounds ∧
    schedule_naive_loads (simulate_groupings hash tree batch0 rounds) ≠
      batch0.length * rounds := by
  have hnaive : schedule_naive_loads (simulate_groupings hash tree batch0 rounds) =
      256 * rounds := by
    rw [schedule_naive_loads_eq, length_simulate_groupings]
  refine ⟨?_, hnaive, ?_⟩
  · unfold emitRound
    rw [if_neg (by omega), if_neg (by omega)]
  · rw [hnaive]
    intro h
    exact hb (Nat.eq_of_mul_eq_mul_right hR h).symm

/-- Witness for C10 at a one-item batch and a nine-group round record. -/
theorem c10_batch_size_hardcoded_witness :
    (emitRound ⟨0, 9, [], fun _ => [], fun _ => 0⟩).loops =
      [{ load := none, iter := LoopIter.rangeN 256,
         form := UpdateForm.genericRecurrence }] ∧
    schedule_naive_loads (simulate_groupings id [0] [(0, 0)] 1) = 256 * 1 :=
  ⟨(c10_batch_size_hardcoded id [0] [(0, 0)] 1 ⟨0, 9, [], fun _ => [], fun _ => 0⟩
      (by decide) (by decide) (by decide)).1,
   (c10_batch_size_hardcoded id [0] [(0, 0)] 1 ⟨0, 9, [], fun _ => [], fun _ => 0⟩
      (by decide) (by decide) (by decide)).2.1⟩

end ExpandGrouped
